import Mathlib

/-!
# Verification of the nordselect server-selection pipeline

Shallow embedding of `src/servers.rs` (and the older duplicate in
`src/lib.rs`) of the `nordselect` repository: the server data model, the
filter operations, the load/ping sorts, truncation, and the ping
benchmarking pass, together with theorems settling the specification
claims about them.

Conventions of the embedding:
* Rust `usize`/`u8` values are modelled as `Nat` (no operation here can
  overflow: sums of latencies and loads stay far below the machine bounds,
  and `usize` division is `Nat` division).
* The external ping collaborator (`oping`) is modelled as an oracle
  `probe : String → Nat → Except String Nat` giving, for a domain and a
  try index, either the measured latency in whole milliseconds (the Rust
  code casts `latency_ms` to `usize`, i.e. truncates) or an error
  (covering `add_host`/`send` failures).
* Rust `Result`-returning code becomes `RRes`/`Outcome` values; a Rust
  panic (integer division by zero, `Option::unwrap` on `None`) is the
  explicit `fatal` constructor, distinct from an `Err` returned to the
  caller.
* `&mut self` methods become state-passing functions `Servers → ...`.
-/

namespace NordSelect

/-- `CategoryType` from `src/servers.rs`. -/
inductive CategoryType where
  | Standard
  | P2P
  | Obfuscated
  | Dedicated
  | Tor
  | Double
  | UnknownServer
deriving DecidableEq, Repr

/-- `Features` from `src/servers.rs`: the twelve boolean capability flags. -/
structure Features where
  ikev2 : Bool
  openvpn_udp : Bool
  openvpn_tcp : Bool
  socks : Bool
  proxy : Bool
  pptp : Bool
  l2tp : Bool
  openvpn_xor_udp : Bool
  openvpn_xor_tcp : Bool
  proxy_cybersec : Bool
  proxy_ssl : Bool
  proxy_ssl_cybersec : Bool
deriving DecidableEq, Repr

/-- `Server` from `src/servers.rs`.  The `ping` field is the
`measured_latency` of the spec: `none` until a benchmarking pass sets it. -/
structure Server where
  flag : String
  domain : String
  load : Nat
  categories : List CategoryType
  features : Features
  ping : Option Nat
deriving DecidableEq, Repr

/-- `Servers` from `src/servers.rs`: the catalog, an ordered list. -/
structure Servers where
  servers : List Server
deriving DecidableEq, Repr

/-- `Protocol` from `src/servers.rs`. -/
inductive Protocol where
  | Udp
  | Tcp
deriving DecidableEq, Repr

/-- Outcome of a Rust call: normal return, an `Err` propagated with `?`,
or a panic (`fatal`). -/
inductive Outcome where
  | ok
  | err (e : String)
  | fatal (m : String)
deriving DecidableEq, Repr

/-- Outcome of a Rust call returning a value on success. -/
inductive RRes (α : Type) where
  | ok (a : α)
  | err (e : String)
  | fatal (m : String)
deriving DecidableEq, Repr

instance {ε α : Type} [DecidableEq ε] [DecidableEq α] : DecidableEq (Except ε α) :=
  fun a b =>
    match a, b with
    | Except.ok x, Except.ok y =>
      if h : x = y then isTrue (by rw [h]) else isFalse (fun hh => h (Except.ok.inj hh))
    | Except.error x, Except.error y =>
      if h : x = y then isTrue (by rw [h]) else isFalse (fun hh => h (Except.error.inj hh))
    | Except.ok _, Except.error _ => isFalse (fun hh => Except.noConfusion hh)
    | Except.error _, Except.ok _ => isFalse (fun hh => Except.noConfusion hh)

/-- The sum loop inside `Server::ping_single`: iterations `0..tries`, each
adding one probed latency; the first failing probe propagates its error
(the Rust `?` on `add_host`/`send`). -/
def probeSum (probe : String → Nat → Except String Nat) (domain : String) :
    Nat → Except String Nat
  | 0 => Except.ok 0
  | n + 1 =>
    match probeSum probe domain n with
    | Except.error e => Except.error e
    | Except.ok s =>
      match probe domain n with
      | Except.error e => Except.error e
      | Except.ok v => Except.ok (s + v)

/-- `Server::ping_single` from `src/servers.rs`: sum `tries` probe
latencies, then set `ping` to `sum / tries`.  With `tries = 0` the loop
body never runs, so `sum = 0` and the division `0 / 0` panics (Rust
integer division by zero); on a probe error the server is left unchanged
(the assignment to `self.ping` happens only after the whole sum block). -/
def ping_single (probe : String → Nat → Except String Nat) (s : Server)
    (tries : Nat) : RRes Server :=
  match probeSum probe s.domain tries with
  | Except.error e => RRes.err e
  | Except.ok sum =>
    if tries = 0 then RRes.fatal "attempt to divide by zero"
    else RRes.ok { s with ping := some (sum / tries) }

/-- The sequential loop of `Servers::benchmark_ping`: ping each server in
order; the first failure (`?`) aborts the loop, leaving the failing and
all later servers unchanged, while earlier servers keep their new pings. -/
def pingLoop (probe : String → Nat → Except String Nat) (tries : Nat) :
    List Server → List Server × Outcome
  | [] => ([], Outcome.ok)
  | s :: rest =>
    match ping_single probe s tries with
    | RRes.ok s' =>
      let p := pingLoop probe tries rest
      (s' :: p.1, p.2)
    | RRes.err e => (s :: rest, Outcome.err e)
    | RRes.fatal m => (s :: rest, Outcome.fatal m)

/-- The comparator of `Servers::sort_ping`
(`x.ping.unwrap().cmp(&y.ping.unwrap())`), read as a `≤` relation; on the
lists it is actually applied to, every `ping` is `some`, so the `getD 0`
default is never observed. -/
abbrev pingLE (x y : Server) : Prop := x.ping.getD 0 ≤ y.ping.getD 0

/-- The comparator of `Servers::sort_load` (`x.load.cmp(&y.load)`). -/
abbrev loadLE (x y : Server) : Prop := x.load ≤ y.load

instance : IsTotal Server pingLE := ⟨fun a b => Nat.le_total _ _⟩

instance : IsTrans Server pingLE := ⟨fun _ _ _ hab hbc => Nat.le_trans hab hbc⟩

instance : IsTotal Server loadLE := ⟨fun a b => Nat.le_total _ _⟩

instance : IsTrans Server loadLE := ⟨fun _ _ _ hab hbc => Nat.le_trans hab hbc⟩

/-- `Servers::sort_ping` from `src/servers.rs`:
`sort_unstable_by(|x, y| x.ping.unwrap().cmp(&y.ping.unwrap()))`.
A list of length `≤ 1` is never compared, so it cannot panic; otherwise a
comparison-based sort inspects every element at least once, so if any
`ping` is `none` the `unwrap` panics (`none` result); else the list is
sorted ascending by ping.  The unstable stdlib sort is determinised here
by `insertionSort`; every claim proved through it uses only properties
(sortedness, permutation, or distinct keys) shared by all behaviours the
stdlib sort contract allows. -/
def sort_ping (l : List Server) : Option (List Server) :=
  if l.length ≤ 1 ∨ l.all (fun s => s.ping.isSome) then
    some (l.insertionSort pingLE)
  else none

/-- `Servers::sort_load` from `src/servers.rs` (identical in
`src/lib.rs`): `sort_unstable_by(|x, y| x.load.cmp(&y.load))`,
determinised by `insertionSort` (see `sortUnstableLoadAllowed` for the
contract of the unstable stdlib sort actually called). -/
def sort_load (st : Servers) : Servers :=
  ⟨st.servers.insertionSort loadLE⟩

/-- The contract of the stdlib `slice::sort_unstable_by` call performed by
`Servers::sort_load` (the stdlib sort is external code, modelled by its
documented contract): the output is some permutation of the input that is
sorted by `load`; equal elements may be reordered (the sort is
documented as unstable). -/
def sortUnstableLoadAllowed (l l' : List Server) : Prop :=
  l.Perm l' ∧ List.Sorted loadLE l'

instance (l l' : List Server) : Decidable (sortUnstableLoadAllowed l l') :=
  inferInstanceAs (Decidable (_ ∧ _))

/-- `Servers::cut` from `src/servers.rs`: `self.servers.truncate(max)`. -/
def cut (st : Servers) (max : Nat) : Servers :=
  ⟨st.servers.take max⟩

/-- `Servers::perfect_server` from `src/servers.rs` (and
`get_perfect_server` in `src/lib.rs`): clone of the first entry, or
`none`.  The Rust method takes `&self`, so the catalog is unchanged;
accordingly the model returns only the selected server. -/
def perfect_server (st : Servers) : Option Server :=
  match st.servers[0]? with
  | some x => some x
  | none => none

/-- `Servers::filter` from `src/servers.rs`: `retain` with an arbitrary
`Filter` predicate (the `Filter` trait is exactly a predicate on one
server). -/
def Servers.filter (p : Server → Bool) (st : Servers) : Servers :=
  ⟨st.servers.filter p⟩

/-- `Servers::filter_category`: retain servers whose category list
contains the category. -/
def filter_category (c : CategoryType) (st : Servers) : Servers :=
  ⟨st.servers.filter (fun s => decide (c ∈ s.categories))⟩

/-- `Servers::filter_protocol`: retain by the matching openvpn flag. -/
def filter_protocol (p : Protocol) (st : Servers) : Servers :=
  match p with
  | Protocol.Tcp => ⟨st.servers.filter (fun s => s.features.openvpn_tcp)⟩
  | Protocol.Udp => ⟨st.servers.filter (fun s => s.features.openvpn_udp)⟩

/-- `Servers::filter_country`: retain servers whose flag equals the
country code. -/
def filter_country (country : String) (st : Servers) : Servers :=
  ⟨st.servers.filter (fun s => s.flag == country)⟩

/-- `Servers::filter_countries`: retain servers whose flag is in the set
(the `HashSet` is modelled as a list, membership being all `retain`
uses). -/
def filter_countries (countries : List String) (st : Servers) : Servers :=
  ⟨st.servers.filter (fun s => decide (s.flag ∈ countries))⟩

/-- `Servers::benchmark_ping` from `src/servers.rs`: truncate to the first
`servers` entries; if `parallel`, do nothing (the body of the `if` is an
empty `// TODO` stub — no fallback to the sequential loop), else ping each
retained server sequentially, propagating the first error with `?`; on
success (only) run `sort_ping`, whose `unwrap` panics if a compared server
has no ping. -/
def benchmark_ping (probe : String → Nat → Except String Nat) (st : Servers)
    (servers tries : Nat) (parallel : Bool) : Servers × Outcome :=
  let cutSt := cut st servers
  let looped :=
    if parallel then (cutSt.servers, Outcome.ok)
    else pingLoop probe tries cutSt.servers
  match looped.2 with
  | Outcome.ok =>
    match sort_ping looped.1 with
    | some sorted => (⟨sorted⟩, Outcome.ok)
    | none => (⟨looped.1⟩, Outcome.fatal "called Option::unwrap on a None value")
  | o => (⟨looped.1⟩, o)

/-- The pinged version of a server when its probes all succeed (used to
describe the state of the loop in `benchmark_ping`); on failure the
server is returned unchanged, matching the in-place loop. -/
def pingOk (probe : String → Nat → Except String Nat) (tries : Nat)
    (s : Server) : Server :=
  match ping_single probe s tries with
  | RRes.ok s' => s'
  | _ => s

/-- Field-wise equality of two servers on everything except the measured
ping. -/
def eqExceptPing (s t : Server) : Prop :=
  s.flag = t.flag ∧ s.domain = t.domain ∧ s.load = t.load ∧
    s.categories = t.categories ∧ s.features = t.features

instance (s t : Server) : Decidable (eqExceptPing s t) :=
  inferInstanceAs (Decidable (_ ∧ _))

/-! ## Concrete sample data used by counterexamples and witnesses -/

/-- A sample feature set. -/
def featN : Features :=
  ⟨false, true, true, false, false, false, false, false, false, false, false, false⟩

/-- Sample server, domain of length 1 (probe oracles key on domain length). -/
def srvA : Server :=
  { flag := "US", domain := "a", load := 5, categories := [CategoryType.Standard],
    features := featN, ping := none }

/-- Sample server, domain of length 2. -/
def srvB : Server :=
  { flag := "DE", domain := "bb", load := 2, categories := [CategoryType.P2P],
    features := featN, ping := none }

/-- Sample server, domain of length 3. -/
def srvC : Server :=
  { flag := "FR", domain := "ccc", load := 9, categories := [CategoryType.Standard],
    features := featN, ping := none }

/-- `srvB` with its load set equal to `srvA`'s (for load-tie examples). -/
def srvB5 : Server := { srvB with load := 5 }

/-- A probe oracle that always succeeds: 30 ms for a length-1 domain,
10 ms otherwise. -/
def prLat : String → Nat → Except String Nat :=
  fun d _ => Except.ok (if d.length = 1 then 30 else 10)

/-- A probe oracle implementing the spec's worked example, keyed on domain
length: the length-1 domain answers 10 then 20 ms, the length-2 domain 5
and 5 ms, the length-3 domain 100 then 0 ms. -/
def prMean : String → Nat → Except String Nat :=
  fun d i =>
    if d.length = 1 then Except.ok (if i = 0 then 10 else 20)
    else if d.length = 2 then Except.ok 5
    else Except.ok (if i = 0 then 100 else 0)

/-- A probe oracle that fails (host unreachable) for every domain except
length-1 ones. -/
def prFail : String → Nat → Except String Nat :=
  fun d _ => if d.length = 1 then Except.ok 30 else Except.error "unreachable"

/-- `srvA` as left by a 30 ms benchmark pass. -/
def srvA30 : Server := { srvA with ping := some 30 }

/-- `srvB` as left by a 10 ms benchmark pass. -/
def srvB10 : Server := { srvB with ping := some 10 }

/-- Probe latencies `[10, 20]` of the spec's worked example. -/
def fA : Nat → Nat := fun i => if i = 0 then 10 else 20

/-- Probe latencies `[5, 5]` of the spec's worked example. -/
def fB : Nat → Nat := fun _ => 5

/-- Probe latencies `[100, 0]` of the spec's worked example. -/
def fC : Nat → Nat := fun i => if i = 0 then 100 else 0

/-! ## Helper lemmas about the ping machinery -/

/-- Successful `ping_single` runs require `tries ≠ 0` and set exactly the
`ping` field to the floored mean of the summed probe results. -/
theorem ping_single_ok_shape {probe : String → Nat → Except String Nat}
    {s s' : Server} {tries : Nat}
    (h : ping_single probe s tries = RRes.ok s') :
    0 < tries ∧ ∃ sum, probeSum probe s.domain tries = Except.ok sum ∧
      s' = { s with ping := some (sum / tries) } := by
  unfold ping_single at h
  split at h
  · exact absurd h (by simp)
  · rename_i sum hps
    split at h
    · exact absurd h (by simp)
    · rename_i ht
      refine ⟨Nat.pos_of_ne_zero ht, sum, hps, ?_⟩
      injection h with h2
      exact h2.symm

/-- A successful `ping_single` changes no field other than `ping`, and
populates `ping`. -/
theorem ping_single_ok_fields {probe : String → Nat → Except String Nat}
    {s s' : Server} {tries : Nat}
    (h : ping_single probe s tries = RRes.ok s') :
    eqExceptPing s s' ∧ ∃ v, s'.ping = some v := by
  obtain ⟨-, sum, -, rfl⟩ := ping_single_ok_shape h
  exact ⟨⟨rfl, rfl, rfl, rfl, rfl⟩, _, rfl⟩

/-- On a fully successful sequential loop, the catalog is the input list
with each server pinged, in order. -/
theorem pingLoop_ok {probe : String → Nat → Except String Nat} {tries : Nat}
    {l l' : List Server}
    (h : pingLoop probe tries l = (l', Outcome.ok)) :
    l' = l.map (pingOk probe tries) ∧
      ∀ s ∈ l, ∃ s', ping_single probe s tries = RRes.ok s' := by
  induction l generalizing l' with
  | nil =>
    rw [pingLoop] at h
    have h1 := congrArg Prod.fst h
    simp at h1
    subst h1
    simp
  | cons s rest ih =>
    rw [pingLoop] at h
    cases hps : ping_single probe s tries with
    | ok s1 =>
      rw [hps] at h
      have h1 : s1 :: (pingLoop probe tries rest).1 = l' := congrArg Prod.fst h
      have h2 : (pingLoop probe tries rest).2 = Outcome.ok := congrArg Prod.snd h
      have hrec : pingLoop probe tries rest
          = ((pingLoop probe tries rest).1, Outcome.ok) := by rw [← h2]
      obtain ⟨hmap, hall⟩ := ih hrec
      constructor
      · rw [← h1, hmap]
        simp [pingOk, hps]
      · intro t ht
        rcases List.mem_cons.mp ht with rfl | ht
        · exact ⟨s1, hps⟩
        · exact hall t ht
    | err e1 =>
      rw [hps] at h
      exact absurd (congrArg Prod.snd h) (by simp)
    | fatal m =>
      rw [hps] at h
      exact absurd (congrArg Prod.snd h) (by simp)

/-- On a failing sequential loop there is a first failing index `k`: all
earlier servers are pinged in place, the failing and all later servers are
untouched, and the reported error is the one of server `k`. -/
theorem pingLoop_err {probe : String → Nat → Except String Nat} {tries : Nat}
    {l l' : List Server} {e : String}
    (h : pingLoop probe tries l = (l', Outcome.err e)) :
    ∃ k, ∃ hk : k < l.length,
      l' = (l.take k).map (pingOk probe tries) ++ l.drop k ∧
      (∀ s ∈ l.take k, ∃ s', ping_single probe s tries = RRes.ok s') ∧
      ping_single probe (l.get ⟨k, hk⟩) tries = RRes.err e := by
  induction l generalizing l' with
  | nil =>
    rw [pingLoop] at h
    exact absurd (congrArg Prod.snd h) (by simp)
  | cons s rest ih =>
    rw [pingLoop] at h
    cases hps : ping_single probe s tries with
    | ok s1 =>
      rw [hps] at h
      have h1 : s1 :: (pingLoop probe tries rest).1 = l' := congrArg Prod.fst h
      have h2 : (pingLoop probe tries rest).2 = Outcome.err e := congrArg Prod.snd h
      have hrec : pingLoop probe tries rest
          = ((pingLoop probe tries rest).1, Outcome.err e) := by rw [← h2]
      obtain ⟨k, hk, hshape, hpre, hfail⟩ := ih hrec
      refine ⟨k + 1, Nat.succ_lt_succ hk, ?_, ?_, ?_⟩
      · rw [← h1, hshape]
        simp [pingOk, hps]
      · intro t ht
        rw [List.take_succ_cons] at ht
        rcases List.mem_cons.mp ht with rfl | ht
        · exact ⟨s1, hps⟩
        · exact hpre t ht
      · simpa using hfail
    | err e1 =>
      rw [hps] at h
      have h1 := congrArg Prod.fst h
      have h2 := congrArg Prod.snd h
      simp at h1 h2
      refine ⟨0, by simp, by simpa using h1.symm, by simp, ?_⟩
      simpa [hps] using h2
    | fatal m =>
      rw [hps] at h
      exact absurd (congrArg Prod.snd h) (by simp)

/-- A sequential `benchmark_ping` returns `Ok` exactly when the loop
succeeded and the subsequent `sort_ping` did not panic; the final catalog
is the sorted loop result. -/
theorem benchmark_seq_ok {probe : String → Nat → Except String Nat}
    {st st' : Servers} {n tries : Nat}
    (h : benchmark_ping probe st n tries false = (st', Outcome.ok)) :
    ∃ l1, pingLoop probe tries (st.servers.take n) = (l1, Outcome.ok) ∧
      sort_ping l1 = some st'.servers := by
  unfold benchmark_ping cut at h
  simp only [Bool.false_eq_true, if_false] at h
  cases hlp : pingLoop probe tries (st.servers.take n) with
  | mk l1 out =>
    rw [hlp] at h
    cases out with
    | ok =>
      cases hsp : sort_ping l1 with
      | some sorted =>
        rw [hsp] at h
        have h1 := congrArg Prod.fst h
        simp at h1
        refine ⟨l1, rfl, ?_⟩
        rw [hsp, ← h1]
      | none =>
        rw [hsp] at h
        exact absurd (congrArg Prod.snd h) (by simp)
    | err e => exact absurd (congrArg Prod.snd h) (by simp)
    | fatal m => exact absurd (congrArg Prod.snd h) (by simp)

/-- A sequential `benchmark_ping` returns `Err` exactly when the loop
returned that error; the catalog is then the unsorted loop state. -/
theorem benchmark_seq_err {probe : String → Nat → Except String Nat}
    {st st' : Servers} {n tries : Nat} {e : String}
    (h : benchmark_ping probe st n tries false = (st', Outcome.err e)) :
    pingLoop probe tries (st.servers.take n) = (st'.servers, Outcome.err e) := by
  unfold benchmark_ping cut at h
  simp only [Bool.false_eq_true, if_false] at h
  cases hlp : pingLoop probe tries (st.servers.take n) with
  | mk l1 out =>
    rw [hlp] at h
    cases out with
    | ok =>
      cases hsp : sort_ping l1 with
      | some sorted =>
        rw [hsp] at h
        exact absurd (congrArg Prod.snd h) (by simp)
      | none =>
        rw [hsp] at h
        exact absurd (congrArg Prod.snd h) (by simp)
    | err e1 =>
      have h1 := congrArg Prod.fst h
      have h2 := congrArg Prod.snd h
      simp at h1 h2
      rw [h2, ← h1]
    | fatal m => exact absurd (congrArg Prod.snd h) (by simp)

/-- When `sort_ping` succeeds, the result is the insertion-sorted input. -/
theorem sort_ping_some {l l' : List Server} (h : sort_ping l = some l') :
    l' = l.insertionSort pingLE := by
  unfold sort_ping at h
  split at h
  · injection h with h2
    exact h2.symm
  · exact absurd h (by simp)

/-- Sum of `tries` successful probes, as a `Finset.range` sum. -/
theorem probeSum_ok {probe : String → Nat → Except String Nat} {dom : String}
    (f : Nat → Nat) {tries : Nat}
    (hp : ∀ i, i < tries → probe dom i = Except.ok (f i)) :
    probeSum probe dom tries = Except.ok (∑ i in Finset.range tries, f i) := by
  induction tries with
  | zero => simp [probeSum]
  | succ n ih =>
    have ha := ih (fun i hi => hp i (Nat.lt_succ_of_lt hi))
    have hb := hp n (Nat.lt_succ_self n)
    simp [probeSum, ha, hb, Finset.sum_range_succ]

/-! ## Claim theorems -/

/-- C6: for every server whose `tries ≥ 1` probes all succeed,
`ping_single` succeeds and sets `measured_latency` (`ping`) to the
arithmetic mean of the probe latencies rounded down to the whole
millisecond (`Nat` division), leaving every other field unchanged. -/
theorem ping_single_sets_floored_mean (probe : String → Nat → Except String Nat)
    (s : Server) (tries : Nat) (f : Nat → Nat)
    (h1 : 0 < tries) (h2 : ∀ i, i < tries → probe s.domain i = Except.ok (f i)) :
    ping_single probe s tries
      = RRes.ok { s with ping := some ((∑ i in Finset.range tries, f i) / tries) } := by
  unfold ping_single
  rw [probeSum_ok f h2]
  simp [Nat.pos_iff_ne_zero.mp h1]

/-- C6 witness: the spec's worked example: three servers with probe
latencies `[10, 20]`, `[5, 5]` and `[100, 0]` over `tries = 2` get
measured latencies `15`, `5` and `50` ms respectively. -/
theorem ping_single_sets_floored_mean_witness :
    ping_single prMean srvA 2 = RRes.ok { srvA with ping := some 15 } ∧
    ping_single prMean srvB 2 = RRes.ok { srvB with ping := some 5 } ∧
    ping_single prMean srvC 2 = RRes.ok { srvC with ping := some 50 } :=
  ⟨ping_single_sets_floored_mean prMean srvA 2 fA (by decide) (by decide),
   ping_single_sets_floored_mean prMean srvB 2 fB (by decide) (by decide),
   ping_single_sets_floored_mean prMean srvC 2 fC (by decide) (by decide)⟩

/-- C1 counterexample: a successful `benchmark_ping` call does reorder the
catalog: with first-server latency 30 ms and second-server latency 10 ms,
the call succeeds but returns the two retained servers in swapped order
(the source sorts by ping via `sort_ping` before returning), refuting the
claim that the result is the input prefix in its original relative
order. -/
theorem benchmark_reorders_cex :
    benchmark_ping prLat ⟨[srvA, srvB]⟩ 2 1 false
      = (⟨[srvB10, srvA30]⟩, Outcome.ok) ∧
    (benchmark_ping prLat ⟨[srvA, srvB]⟩ 2 1 false).1.servers
      ≠ [srvA30, srvB10] :=
  ⟨rfl, by decide⟩

/-- C1 (amended): after a successful sequential `benchmark_ping`, the
catalog consists of exactly the first `servers` entries of the input,
each unchanged except for its now-populated `measured_latency`, but
reordered: sorted in ascending order of measured latency. -/
theorem benchmark_ok_sorted_pinged (probe : String → Nat → Except String Nat)
    (st st' : Servers) (n tries : Nat)
    (h : benchmark_ping probe st n tries false = (st', Outcome.ok)) :
    st'.servers.Perm ((st.servers.take n).map (pingOk probe tries)) ∧
    List.Sorted pingLE st'.servers ∧
    ∀ s ∈ st.servers.take n,
      eqExceptPing s (pingOk probe tries s) ∧
        ∃ v, (pingOk probe tries s).ping = some v := by
  obtain ⟨l1, hlp, hsp⟩ := benchmark_seq_ok h
  obtain ⟨hmap, hall⟩ := pingLoop_ok hlp
  have hEq : st'.servers = l1.insertionSort pingLE := sort_ping_some hsp
  refine ⟨?_, ?_, ?_⟩
  · rw [hEq, ← hmap]
    exact List.perm_insertionSort pingLE l1
  · rw [hEq]
    exact List.sorted_insertionSort pingLE l1
  · intro s hs
    obtain ⟨s', hps⟩ := hall s hs
    simpa [pingOk, hps] using ping_single_ok_fields hps

/-- C1 witness: the amended statement instantiated on the concrete
two-server catalog of the counterexample. -/
theorem benchmark_ok_sorted_pinged_witness :
    (Servers.mk [srvB10, srvA30]).servers.Perm
        (((Servers.mk [srvA, srvB]).servers.take 2).map (pingOk prLat 1)) ∧
    List.Sorted pingLE (Servers.mk [srvB10, srvA30]).servers ∧
    ∀ s ∈ (Servers.mk [srvA, srvB]).servers.take 2,
      eqExceptPing s (pingOk prLat 1 s) ∧
        ∃ v, (pingOk prLat 1 s).ping = some v :=
  benchmark_ok_sorted_pinged prLat ⟨[srvA, srvB]⟩ ⟨[srvB10, srvA30]⟩ 2 1 (by decide)

/-- C2: `benchmark_ping` with `tries = 0` on a catalog retaining one
server does not return an invalid-input `Err` to the caller: it panics
with a division by zero inside `ping_single` (`sum / tries` with
`tries = 0`), contradicting the spec's required `InvalidInputError`. -/
theorem benchmark_tries_zero_divzero :
    benchmark_ping prLat ⟨[srvA]⟩ 1 0 false
      = (⟨[srvA]⟩, Outcome.fatal "attempt to divide by zero") ∧
    ∀ e, Outcome.fatal "attempt to divide by zero" ≠ Outcome.err e :=
  ⟨rfl, fun _ h => Outcome.noConfusion h⟩

/-- C3: `benchmark_ping` with `parallel = true` is not equivalent to the
sequential run: the parallel branch is an empty stub, so no probe is
performed, every retained `ping` stays `none`, and the unconditional
`sort_ping` then panics on `unwrap` as soon as two servers are compared,
while the sequential run succeeds. -/
theorem benchmark_parallel_stub_divergence :
    benchmark_ping prLat ⟨[srvA, srvB]⟩ 2 1 true
      = (⟨[srvA, srvB]⟩, Outcome.fatal "called Option::unwrap on a None value") ∧
    benchmark_ping prLat ⟨[srvA, srvB]⟩ 2 1 false
      = (⟨[srvB10, srvA30]⟩, Outcome.ok) ∧
    benchmark_ping prLat ⟨[srvA, srvB]⟩ 2 1 true
      ≠ benchmark_ping prLat ⟨[srvA, srvB]⟩ 2 1 false :=
  ⟨rfl, rfl, by decide⟩

/-- C5: when a probe fails during a sequential `benchmark_ping` on a
fresh catalog (all pings `none`), the whole call returns that error;
there is a first failing index `k`: the servers before it keep their
newly measured latencies (all other fields untouched), the failing and
all later servers still have `measured_latency = none`, and the catalog
is left in unsorted loop order (`sort_ping` never runs on this path). -/
theorem benchmark_probe_error (probe : String → Nat → Except String Nat)
    (st st' : Servers) (n tries : Nat) (e : String)
    (hfresh : ∀ s ∈ st.servers, s.ping = none)
    (h : benchmark_ping probe st n tries false = (st', Outcome.err e)) :
    ∃ k, ∃ hk : k < (st.servers.take n).length,
      st'.servers = ((st.servers.take n).take k).map (pingOk probe tries)
          ++ (st.servers.take n).drop k ∧
      (∀ s ∈ (st.servers.take n).take k,
        eqExceptPing s (pingOk probe tries s) ∧
          ∃ v, (pingOk probe tries s).ping = some v) ∧
      (∀ s ∈ (st.servers.take n).drop k, s.ping = none) ∧
      ping_single probe ((st.servers.take n).get ⟨k, hk⟩) tries = RRes.err e := by
  have hlp := benchmark_seq_err h
  obtain ⟨k, hk, hshape, hpre, hfail⟩ := pingLoop_err hlp
  refine ⟨k, hk, hshape, ?_, ?_, hfail⟩
  · intro s hs
    obtain ⟨s', hps⟩ := hpre s hs
    simpa [pingOk, hps] using ping_single_ok_fields hps
  · intro s hs
    exact hfresh s
      ((List.take_sublist n st.servers).subset ((List.drop_sublist k _).subset hs))

/-- C5 witness: three fresh servers, the second probe unreachable: the
call fails with that error, the first server keeps its measured 30 ms,
the second and third keep `none`, and no sort happens. -/
theorem benchmark_probe_error_witness :
    ∃ k, ∃ hk : k < ((Servers.mk [srvA, srvB, srvC]).servers.take 3).length,
      (Servers.mk [srvA30, srvB, srvC]).servers
          = (((Servers.mk [srvA, srvB, srvC]).servers.take 3).take k).map (pingOk prFail 1)
            ++ ((Servers.mk [srvA, srvB, srvC]).servers.take 3).drop k ∧
      (∀ s ∈ ((Servers.mk [srvA, srvB, srvC]).servers.take 3).take k,
        eqExceptPing s (pingOk prFail 1 s) ∧
          ∃ v, (pingOk prFail 1 s).ping = some v) ∧
      (∀ s ∈ ((Servers.mk [srvA, srvB, srvC]).servers.take 3).drop k, s.ping = none) ∧
      ping_single prFail (((Servers.mk [srvA, srvB, srvC]).servers.take 3).get ⟨k, hk⟩) 1
        = RRes.err "unreachable" :=
  benchmark_probe_error prFail ⟨[srvA, srvB, srvC]⟩ ⟨[srvA30, srvB, srvC]⟩ 3 1
    "unreachable" (by decide) (by decide)

/-- C4 counterexample: `sort_load` calls the stdlib unstable sort, whose
contract (`sortUnstableLoadAllowed`) permits, for two distinct servers of
equal load, an output in which their relative order is swapped — so the
claimed stability does not hold on the code. -/
theorem sort_load_stability_cex :
    sortUnstableLoadAllowed [srvA, srvB5] [srvB5, srvA] ∧
    srvA.load = srvB5.load ∧ srvA ≠ srvB5 ∧
    ([srvB5, srvA] : List Server) ≠ [srvA, srvB5] := by
  decide

/-- C4 (amended): `sort_load` produces a catalog that is a permutation of
the input sorted in ascending order of `load` (an outcome allowed by the
unstable-sort contract); the relative order of equal-load servers is not
guaranteed. -/
theorem sort_load_sorted_perm :
    ∀ st : Servers,
      (sort_load st).servers.Perm st.servers ∧
      List.Sorted loadLE (sort_load st).servers ∧
      sortUnstableLoadAllowed st.servers (sort_load st).servers := by
  intro st
  exact ⟨List.perm_insertionSort loadLE st.servers,
    List.sorted_insertionSort loadLE st.servers,
    (List.perm_insertionSort loadLE st.servers).symm,
    List.sorted_insertionSort loadLE st.servers⟩

/-- C7: applying a filter (the generic `Filter` predicate, of which the
built-in category, protocol, country and countries filters are instances)
keeps exactly the matching servers as a subsequence of the input: no
reordering, no insertion, no modification, and an empty result is a
legitimate value. -/
theorem filter_narrowing :
    (∀ (p : Server → Bool) (st : Servers),
      (Servers.filter p st).servers.Sublist st.servers ∧
      ∀ s, s ∈ (Servers.filter p st).servers ↔ s ∈ st.servers ∧ p s = true) ∧
    (∀ (c : CategoryType) (st : Servers),
      filter_category c st
        = Servers.filter (fun s => decide (c ∈ s.categories)) st) ∧
    (∀ (country : String) (st : Servers),
      filter_country country st
        = Servers.filter (fun s => s.flag == country) st) ∧
    (∀ (countries : List String) (st : Servers),
      filter_countries countries st
        = Servers.filter (fun s => decide (s.flag ∈ countries)) st) ∧
    (∀ (pr : Protocol) (st : Servers),
      filter_protocol pr st = Servers.filter
        (fun s => match pr with
          | Protocol.Tcp => s.features.openvpn_tcp
          | Protocol.Udp => s.features.openvpn_udp) st) := by
  refine ⟨fun p st => ⟨List.filter_sublist _, fun s => List.mem_filter⟩,
    fun c st => rfl, fun country st => rfl, fun countries st => rfl,
    fun pr st => ?_⟩
  cases pr <;> rfl

/-- C8: `cut` keeps exactly the first `max` entries in order, is a no-op
when the catalog already has at most `max` entries, empties the catalog
at `max = 0`, and `cut n` followed by `cut m` with `n ≤ m` equals `cut n`
alone. -/
theorem cut_take_properties :
    ∀ (st : Servers) (n m : Nat),
      (cut st n).servers = st.servers.take n ∧
      (st.servers.length ≤ n → cut st n = st) ∧
      (cut st 0).servers = [] ∧
      (n ≤ m → cut (cut st n) m = cut st n) := by
  intro st n m
  refine ⟨rfl, ?_, rfl, ?_⟩
  · intro hlen
    cases st with
    | mk l =>
      show Servers.mk (l.take n) = Servers.mk l
      rw [List.take_of_length_le hlen]
  · intro hnm
    show Servers.mk ((st.servers.take n).take m) = Servers.mk (st.servers.take n)
    rw [List.take_take, Nat.min_eq_right hnm]

/-- C8 witness: `cut 1` then `cut 2` equals `cut 1`, and `cut 5` is a
no-op on a two-server catalog. -/
theorem cut_take_properties_witness :
    cut (cut ⟨[srvA, srvB]⟩ 1) 2 = cut ⟨[srvA, srvB]⟩ 1 ∧
    cut ⟨[srvA, srvB]⟩ 5 = ⟨[srvA, srvB]⟩ :=
  ⟨(cut_take_properties ⟨[srvA, srvB]⟩ 1 2).2.2.2 (by decide),
   (cut_take_properties ⟨[srvA, srvB]⟩ 5 0).2.1 (by decide)⟩

/-- C9: `perfect_server` returns the first catalog entry (`none` on an
empty catalog, never an error), reads the catalog without modifying it,
and on the load-sorted catalog `[5, 2, 9]` returns the `load = 2`
server. -/
theorem perfect_server_first :
    ∀ st : Servers,
      perfect_server st = st.servers.head? ∧
      perfect_server ⟨[]⟩ = none ∧
      perfect_server (sort_load ⟨[srvA, srvB, srvC]⟩) = some srvB ∧
      srvB.load = 2 := by
  intro st
  refine ⟨?_, rfl, by decide, rfl⟩
  cases st with
  | mk l =>
    cases l with
    | nil => rfl
    | cons a t => simp [perfect_server]

/-- C10: `benchmark_ping` with `servers = 0` truncates the catalog to
empty and then succeeds for every `tries` (including 0) and both
`parallel` modes: the loop body and the sort comparator never run. -/
theorem benchmark_zero_servers :
    ∀ (probe : String → Nat → Except String Nat) (st : Servers) (tries : Nat)
      (par : Bool),
      benchmark_ping probe st 0 tries par = (⟨[]⟩, Outcome.ok) := by
  intro probe st tries par
  cases par <;> rfl

end NordSelect
